import Mathlib

/-!
Verification development for the Solana playground code-execution service.

The repository ships the server's README (architecture, API, templates), the
frontend sources, and the language templates.  The server's own Rust source
(request handler, per-language mutex, stager, runner, classifier) is not part
of the checked-in sources here, so those components are modelled from the
specification; the frontend snippet loader is embedded directly from
`frontend/utils/codeSnippets.ts`.
-/

namespace Playground

/-- The two supported languages of the playground. -/
inductive Language : Type
  | rust
  | typescript
deriving DecidableEq, Repr

/-- Modelled from the spec: the structured Execution Result
`{ success: bool, output: string, error: string|null }` returned to callers
(also declared as `CompileResponse` in the frontend). -/
structure ExecutionResult : Type where
  success : Bool
  output : String
  error : Option String
deriving DecidableEq, Repr

/-- Modelled from the spec: the fixed diagnostic message of a timeout failure. -/
def timeoutMessage : String := "execution timed out"

/-- Modelled from the spec: the generic diagnostic of an infrastructure error
(stage write failure, process spawn failure). -/
def infraMessage : String := "infrastructure error"

/-- Modelled from the spec: the Result Classifier, a pure mapping
`(buildExit, runExit, stderrText, stdoutText, timedOut) → ExecutionResult`
with precedence timeout > build failure > run failure > success. -/
def classify (buildExit runExit : Int) (stderrText stdoutText : String)
    (timedOut : Bool) : ExecutionResult :=
  if timedOut then
    { success := false, output := stdoutText, error := some timeoutMessage }
  else if buildExit ≠ 0 then
    { success := false, output := "", error := some stderrText }
  else if runExit ≠ 0 then
    { success := false, output := stdoutText, error := some stderrText }
  else
    { success := true, output := stdoutText, error := none }

/-- Modelled from the spec: the observable data of one toolchain child-process
pipeline (exit codes, captured streams, wall-clock elapsed time, CPU time). -/
structure ProcData : Type where
  buildExit : Int
  runExit : Int
  stdoutText : String
  stderrText : String
  elapsedMs : Nat
  cpuMs : Nat
deriving DecidableEq, Repr

/-- Modelled from the spec: what the Toolchain Runner reports about process
lifecycle: whether the timeout fired, whether the child process tree was
forcibly terminated, and how many times the toolchain was invoked. -/
structure RunnerRes : Type where
  timedOut : Bool
  treeKilled : Bool
  attempts : Nat
deriving DecidableEq, Repr

/-- Modelled from the spec: the Toolchain Runner's timeout policy — wall-clock
elapsed time (independent of CPU usage) is compared against the configured
timeout; on expiry the process tree is force-terminated; a single attempt is
made, never a retry. -/
def runWithTimeout (timeoutMs : Nat) (p : ProcData) : RunnerRes :=
  if timeoutMs < p.elapsedMs then
    { timedOut := true, treeKilled := true, attempts := 1 }
  else
    { timedOut := false, treeKilled := false, attempts := 1 }

/-- Modelled from the spec: the outcome of driving a validated submission
through the pipeline — either the toolchain processes ran and produced
`ProcData`, or an infrastructure error (stage write failure, spawn failure)
occurred. -/
inductive PipeOutcome : Type
  | ran (p : ProcData)
  | infraError
deriving DecidableEq, Repr

/-- Modelled from the spec: the Execution Result produced for a pipeline
outcome: process data goes through the Result Classifier (with the timeout
flag computed by the Toolchain Runner); an infrastructure error surfaces as
`success:false` with a generic diagnostic. -/
def execResult (timeoutMs : Nat) : PipeOutcome → ExecutionResult
  | .ran p =>
      classify p.buildExit p.runExit p.stderrText p.stdoutText
        (runWithTimeout timeoutMs p).timedOut
  | .infraError => { success := false, output := "", error := some infraMessage }

/-- A template workspace: contents of every file path. -/
def Workspace : Type := String → String

/-- The designated entry file of each language's template, per the server
README (`template-rs/src/main.rs`, `template-ts/src/index.ts` are the files
"that get replaced with user code"). -/
def entryFile : Language → String
  | .rust => "src/main.rs"
  | .typescript => "src/index.ts"

/-- Modelled from the spec: the Source Stager — writes the submitted code
verbatim to the language's entry-file path, replacing previous contents, and
touches no other file. -/
def stage (lang : Language) (code : String) (ws : Workspace) : Workspace :=
  fun p => if p = entryFile lang then code else ws p

/-- Modelled from the spec: the parsed body of a POST submission — either
malformed JSON, JSON missing the `code` field, or a well-formed submission
carrying the code string. -/
inductive ReqBody : Type
  | malformed
  | missingCode
  | withCode (code : String)
deriving DecidableEq, Repr

/-- Extract the code of a well-formed submission body. -/
def validBody : ReqBody → Option String
  | .withCode c => some c
  | .malformed => none
  | .missingCode => none

/-- Modelled from the spec: the pipeline effects observable per request —
whether the Execution Gate was acquired, whether the entry file was staged,
whether any toolchain process was invoked. -/
structure Effects : Type where
  gateAcquired : Bool
  stagedFile : Bool
  toolchainInvoked : Bool
deriving DecidableEq, Repr

/-- Modelled from the spec: the complete outcome of handling one POST request:
HTTP status, optional `ExecutionResult` body, pipeline effects, and the
resulting template workspace. -/
structure HandlerOut : Type where
  status : Nat
  body : Option ExecutionResult
  effects : Effects
  ws : Workspace

/-- Modelled from the spec: the Request Handler for `POST /rust` and
`POST /typescript`.  A malformed or code-less body is rejected with a client
error before any gate, staging or toolchain work; a valid body drives the
stage+run pipeline and replies HTTP 200 with the Execution Result regardless
of application outcome. -/
def handle (lang : Language) (b : ReqBody) (oc : PipeOutcome) (timeoutMs : Nat)
    (ws : Workspace) : HandlerOut :=
  match validBody b with
  | none =>
      { status := 400, body := none
        effects := { gateAcquired := false, stagedFile := false, toolchainInvoked := false }
        ws := ws }
  | some code =>
      { status := 200, body := some (execResult timeoutMs oc)
        effects := { gateAcquired := true, stagedFile := true, toolchainInvoked := true }
        ws := stage lang code ws }

/-- Modelled from the spec: the per-request lifecycle phases of the Request
Handler's state machine `Received → Validated → GateAcquired → Staged →
Built/Run → Classified → GateReleased → Responded`. -/
inductive Phase : Type
  | received
  | validated
  | gateAcquired
  | staged
  | builtRun
  | classified
  | gateReleased
  | responded
deriving DecidableEq, Repr

/-- A phase in which a request holds the language's Execution Gate (the
staging+build+run cycle is in flight). -/
def inflight : Phase → Bool
  | .gateAcquired => true
  | .staged => true
  | .builtRun => true
  | .classified => true
  | _ => false

/-- Modelled from the spec: what one request carries through its lifecycle:
its language, current phase, and history flags recording whether it ever
acquired and ever released the Execution Gate. -/
structure ReqInfo : Type where
  lang : Language
  phase : Phase
  acquiredEver : Bool
  releasedEver : Bool
deriving DecidableEq, Repr

/-- Modelled from the spec: one language's Execution Gate: the current holder,
the FIFO wait queue of blocked acquirers, and (for specification purposes)
the full histories of queue joins and of grants, in order. -/
structure LangState : Type where
  holder : Option Nat
  queue : List Nat
  grants : List Nat
  joins : List Nat
deriving DecidableEq, Repr

/-- Modelled from the spec: the global service state: all requests seen so
far (keyed by request ID) and the two independent per-language gates. -/
structure SysState : Type where
  reqs : List (Nat × ReqInfo)
  rustGate : LangState
  tsGate : LangState
deriving DecidableEq, Repr

/-- The pristine service state: no requests, both gates free. -/
def initState : SysState :=
  { reqs := []
    rustGate := { holder := none, queue := [], grants := [], joins := [] }
    tsGate := { holder := none, queue := [], grants := [], joins := [] } }

/-- Look up a request's info by ID (first match). -/
def findReq : List (Nat × ReqInfo) → Nat → Option ReqInfo
  | [], _ => none
  | (j, info) :: rest, i => if i = j then some info else findReq rest i

/-- Replace a request's info by ID (first match). -/
def setReq : List (Nat × ReqInfo) → Nat → ReqInfo → List (Nat × ReqInfo)
  | [], _, _ => []
  | (j, info) :: rest, i, v =>
      if i = j then (j, v) :: rest else (j, info) :: setReq rest i v

/-- The gate of one language. -/
def perLang (s : SysState) : Language → LangState
  | .rust => s.rustGate
  | .typescript => s.tsGate

/-- Replace the gate of one language. -/
def setLang (s : SysState) : Language → LangState → SysState
  | .rust, g => { s with rustGate := g }
  | .typescript, g => { s with tsGate := g }

/-- Modelled from the spec: the atomic actions of request processing.  Each
action names the request it concerns and that request's language.
`buildRun` records which process outcome occurred; `abortRelease` is the
scoped release performed when an unexpected exception interrupts the cycle
between acquisition and classification. -/
inductive Act : Type
  | arrive (id : Nat) (lang : Language)
  | validateFail (id : Nat) (lang : Language)
  | validateOk (id : Nat) (lang : Language)
  | acquire (id : Nat) (lang : Language)
  | stageEntry (id : Nat) (lang : Language)
  | buildRun (id : Nat) (lang : Language) (oc : PipeOutcome)
  | classifyRes (id : Nat) (lang : Language)
  | release (id : Nat) (lang : Language)
  | abortRelease (id : Nat) (lang : Language)
  | respond (id : Nat) (lang : Language)
deriving DecidableEq, Repr

/-- The request ID an action concerns. -/
def actId : Act → Nat
  | .arrive i _ => i
  | .validateFail i _ => i
  | .validateOk i _ => i
  | .acquire i _ => i
  | .stageEntry i _ => i
  | .buildRun i _ _ => i
  | .classifyRes i _ => i
  | .release i _ => i
  | .abortRelease i _ => i
  | .respond i _ => i

/-- The language an action concerns. -/
def actLang : Act → Language
  | .arrive _ L => L
  | .validateFail _ L => L
  | .validateOk _ L => L
  | .acquire _ L => L
  | .stageEntry _ L => L
  | .buildRun _ L _ => L
  | .classifyRes _ L => L
  | .release _ L => L
  | .abortRelease _ L => L
  | .respond _ L => L

/-- Modelled from the spec: one step of the service.  Validation failures
respond without touching the gate; acquisition is granted only to the head of
the FIFO wait queue when the gate is free; release (normal or exceptional)
frees the gate before the response is produced. -/
def step (s : SysState) (a : Act) : Option SysState :=
  match a with
  | .arrive id L =>
      match findReq s.reqs id with
      | some _ => none
      | none =>
          some { s with reqs :=
            s.reqs ++ [(id, { lang := L, phase := .received
                              acquiredEver := false, releasedEver := false })] }
  | .validateFail id L =>
      match findReq s.reqs id with
      | none => none
      | some info =>
          if info.lang = L ∧ info.phase = .received then
            some { s with reqs := setReq s.reqs id ({ info with phase := .responded }) }
          else none
  | .validateOk id L =>
      match findReq s.reqs id with
      | none => none
      | some info =>
          if info.lang = L ∧ info.phase = .received then
            let info2 := { info with phase := Phase.validated }
            let g2 := { perLang s L with
              queue := (perLang s L).queue ++ [id]
              joins := (perLang s L).joins ++ [id] }
            some (setLang { s with reqs := setReq s.reqs id info2 } L g2)
          else none
  | .acquire id L =>
      match findReq s.reqs id with
      | none => none
      | some info =>
          if info.lang = L ∧ info.phase = .validated ∧
              (perLang s L).holder = none ∧ (perLang s L).queue.head? = some id then
            let info2 := { info with phase := Phase.gateAcquired, acquiredEver := true }
            let g2 := { perLang s L with
              holder := some id
              queue := (perLang s L).queue.tail
              grants := (perLang s L).grants ++ [id] }
            some (setLang { s with reqs := setReq s.reqs id info2 } L g2)
          else none
  | .stageEntry id L =>
      match findReq s.reqs id with
      | none => none
      | some info =>
          if info.lang = L ∧ info.phase = .gateAcquired then
            some { s with reqs := setReq s.reqs id ({ info with phase := .staged }) }
          else none
  | .buildRun id L _ =>
      match findReq s.reqs id with
      | none => none
      | some info =>
          if info.lang = L ∧ info.phase = .staged then
            some { s with reqs := setReq s.reqs id ({ info with phase := .builtRun }) }
          else none
  | .classifyRes id L =>
      match findReq s.reqs id with
      | none => none
      | some info =>
          if info.lang = L ∧ info.phase = .builtRun then
            some { s with reqs := setReq s.reqs id ({ info with phase := .classified }) }
          else none
  | .release id L =>
      match findReq s.reqs id with
      | none => none
      | some info =>
          if info.lang = L ∧ info.phase = .classified ∧
              (perLang s L).holder = some id then
            let info2 := { info with phase := Phase.gateReleased, releasedEver := true }
            let g2 := { perLang s L with holder := none }
            some (setLang { s with reqs := setReq s.reqs id info2 } L g2)
          else none
  | .abortRelease id L =>
      match findReq s.reqs id with
      | none => none
      | some info =>
          if info.lang = L ∧
              (info.phase = .gateAcquired ∨ info.phase = .staged ∨
                info.phase = .builtRun) ∧
              (perLang s L).holder = some id then
            let info2 := { info with phase := Phase.gateReleased, releasedEver := true }
            let g2 := { perLang s L with holder := none }
            some (setLang { s with reqs := setReq s.reqs id info2 } L g2)
          else none
  | .respond id L =>
      match findReq s.reqs id with
      | none => none
      | some info =>
          if info.lang = L ∧ info.phase = .gateReleased then
            some { s with reqs := setReq s.reqs id ({ info with phase := .responded }) }
          else none

/-- Run a list of actions from a state, failing if any action is not
enabled. -/
def run (s : SysState) : List Act → Option SysState
  | [] => some s
  | a :: rest =>
      match step s a with
      | none => none
      | some t => run t rest

/-- A request whose staging+build+run cycle is in flight holds its language's
gate: at most one holder per language exists because the holder field is a
single option. -/
def HolderInv (s : SysState) : Prop :=
  ∀ id info, findReq s.reqs id = some info → inflight info.phase = true →
    (perLang s info.lang).holder = some id

/-- A held gate always points at an existing request of that language whose
cycle is in flight. -/
def HolderActive (s : SysState) : Prop :=
  ∀ L id, (perLang s L).holder = some id →
    ∃ info, findReq s.reqs id = some info ∧ info.lang = L ∧
      inflight info.phase = true

/-- FIFO service: the grant history followed by the current wait queue is
exactly the join (arrival) history, so gates are granted in arrival order. -/
def FifoInv (s : SysState) : Prop :=
  ∀ L, (perLang s L).grants ++ (perLang s L).queue = (perLang s L).joins

/-- Unconditional release: any request past the release point that ever
acquired a gate has also released it. -/
def RelInv (s : SysState) : Prop :=
  ∀ id info, findReq s.reqs id = some info →
    (info.phase = Phase.gateReleased ∨ info.phase = Phase.responded) →
    info.acquiredEver = true → info.releasedEver = true

/-- A request that has not passed validation has never acquired a gate. -/
def EarlyInv (s : SysState) : Prop :=
  ∀ id info, findReq s.reqs id = some info →
    (info.phase = Phase.received ∨ info.phase = Phase.validated) →
    info.acquiredEver = false

/-- The conjunction of all service invariants. -/
def Inv (s : SysState) : Prop :=
  HolderInv s ∧ HolderActive s ∧ FifoInv s ∧ RelInv s ∧ EarlyInv s

/-- A concrete trace: one Rust request arrives, validates and acquires the
gate. -/
def demoActs1 : List Act :=
  [.arrive 0 .rust, .validateOk 0 .rust, .acquire 0 .rust]

/-- The state reached by `demoActs1`. -/
def demoState1 : SysState := (run initState demoActs1).getD initState

/-- The info of request 0 in `demoState1`. -/
def demoInfo1 : ReqInfo :=
  { lang := .rust, phase := .gateAcquired, acquiredEver := true, releasedEver := false }

/-- A concrete trace: one Rust request goes through a complete cycle up to the
response. -/
def demoActs2 : List Act :=
  [.arrive 0 .rust, .validateOk 0 .rust, .acquire 0 .rust, .stageEntry 0 .rust,
   .buildRun 0 .rust .infraError, .classifyRes 0 .rust, .release 0 .rust,
   .respond 0 .rust]

/-- The state reached by `demoActs2`. -/
def demoState2 : SysState := (run initState demoActs2).getD initState

/-- The info of request 0 in `demoState2`. -/
def demoInfo2 : ReqInfo :=
  { lang := .rust, phase := .responded, acquiredEver := true, releasedEver := true }

/-- A concrete trace: a Rust request and a TypeScript request both arrive. -/
def demoActs9 : List Act := [.arrive 0 .rust, .arrive 1 .typescript]

/-- The state reached by `demoActs9`. -/
def demoState9 : SysState := (run initState demoActs9).getD initState

/-- The state after the Rust request of `demoState9` validates. -/
def demoState9a : SysState :=
  (step demoState9 (.validateOk 0 .rust)).getD initState

/-- The state after the TypeScript request of `demoState9` validates. -/
def demoState9b : SysState :=
  (step demoState9 (.validateOk 1 .typescript)).getD initState

/-- The state after a single Rust request has arrived. -/
def demoStateA : SysState := (step initState (.arrive 0 .rust)).getD initState

/-- Concrete process data: finished cleanly but took 6 ms of wall-clock
time. -/
def demoProc : ProcData :=
  { buildExit := 0, runExit := 0, stdoutText := "hi", stderrText := ""
    elapsedMs := 6, cpuMs := 1 }

/-- Concrete process data: wrote to standard output and exited non-zero,
within the time budget. -/
def demoProcRunFail : ProcData :=
  { buildExit := 0, runExit := 1, stdoutText := "partway", stderrText := "boom"
    elapsedMs := 2, cpuMs := 1 }

/-- A concrete workspace in which every file is empty. -/
def demoWs : Workspace := fun _ => ""

end Playground

namespace Snippets

/-!
Embedding of `frontend/utils/codeSnippets.ts`.  A `fetch` returns either a
thrown error or a response whose `ok` flag and `text()` body are observable;
`text()` itself may also throw.
-/

/-- A fetch response: the `ok` flag and the result of `text()` (which may
itself reject). -/
structure FetchResp : Type where
  ok : Bool
  text : Except String String

/-- The browser fetch environment: every URL either throws or yields a
response. -/
def Fetch : Type := String → Except String FetchResp

/-- URL of a snippet's Rust file, as built by `loadSnippet`. -/
def rustUrl (snippetId : String) : String := "/code/" ++ snippetId ++ "/rust.txt"

/-- URL of a snippet's TypeScript file, as built by `loadSnippet`. -/
def tsUrl (snippetId : String) : String := "/code/" ++ snippetId ++ "/typescript.txt"

/-- The `CodeSnippet` interface of `codeSnippets.ts`. -/
structure CodeSnippet : Type where
  id : String
  title : String
  description : String
  rustCode : String
  tsCode : String
  category : Option String
deriving DecidableEq, Repr

/-- The record returned by `getSnippetDetails`. -/
structure SnippetDetails : Type where
  title : String
  description : String
  category : Option String
deriving DecidableEq, Repr

/-- `getSnippetDetails` of `codeSnippets.ts`: maps a snippet ID to its title,
description and category, with a fallback for unknown IDs. -/
def getSnippetDetails (snippetId : String) : SnippetDetails :=
  if snippetId = "hello-world" then
    { title := "Hello World", description := "A simple Hello World example"
      category := some "Basic" }
  else if snippetId = "fibonacci" then
    { title := "Fibonacci", description := "Calculate Fibonacci numbers"
      category := some "Algorithms" }
  else if snippetId = "solana-demo" then
    { title := "Solana Demo", description := "Check Solana wallet balance"
      category := some "Blockchain" }
  else
    { title := snippetId, description := "Example code", category := some "Other" }

/-- The body of `loadSnippet`'s `try` block: fetch both files, return `null`
(`none`) when either response is not ok, otherwise read both texts and build
the snippet.  Any thrown step surfaces as `.error`. -/
def loadSnippetBody (fetch : Fetch) (snippetId : String) :
    Except String (Option CodeSnippet) := do
  let rustRes ← fetch (rustUrl snippetId)
  let tsRes ← fetch (tsUrl snippetId)
  if !rustRes.ok || !tsRes.ok then
    return none
  let rustCode ← rustRes.text
  let tsCode ← tsRes.text
  let d := getSnippetDetails snippetId
  return some { id := snippetId, title := d.title, description := d.description
                rustCode := rustCode, tsCode := tsCode, category := d.category }

/-- `loadSnippet` of `codeSnippets.ts`: the `try` body wrapped in the `catch`
that resolves to `null` instead of rejecting. -/
def loadSnippet (fetch : Fetch) (snippetId : String) : Option CodeSnippet :=
  match loadSnippetBody fetch snippetId with
  | .error _ => none
  | .ok v => v

/-- `availableSnippets` of `codeSnippets.ts`. -/
def availableSnippets : List String := ["hello-world", "fibonacci", "solana-demo"]

/-- The snippets array produced by the `useCodeSnippets` hook: all available
IDs are loaded and the `null` results of failed loads are filtered out
(`loadedSnippets.filter(Boolean)`). -/
def useCodeSnippets (fetch : Fetch) : List CodeSnippet :=
  ((availableSnippets.map (loadSnippet fetch)).filterMap id)

/-- What a successful load of one file observably yields: the fetch resolved,
the response was ok, and `text()` resolved. -/
def fetchedText (fetch : Fetch) (url : String) : Option String :=
  match fetch url with
  | .error _ => none
  | .ok r => if r.ok then (match r.text with | .ok t => some t | .error _ => none) else none

/-- The snippet built from two successfully loaded file bodies. -/
def mkLoadedSnippet (snippetId rustCode tsCode : String) : CodeSnippet :=
  { id := snippetId
    title := (getSnippetDetails snippetId).title
    description := (getSnippetDetails snippetId).description
    rustCode := rustCode, tsCode := tsCode
    category := (getSnippetDetails snippetId).category }

/-- A concrete fetch environment in which every request throws. -/
def demoFetchDown : Fetch := fun _ => .error "network unreachable"

/-- A concrete fetch environment in which only the hello-world snippet's two
files exist. -/
def demoFetchHello : Fetch := fun url =>
  if url = rustUrl "hello-world" then
    .ok { ok := true, text := .ok "fn main() \x7b\x7d" }
  else if url = tsUrl "hello-world" then
    .ok { ok := true, text := .ok "console.log(1);" }
  else
    .ok { ok := false, text := .error "404" }

end Snippets

namespace Playground

theorem findReq_setReq_self (l : List (Nat × ReqInfo)) (i : Nat) (v x : ReqInfo)
    (h : findReq l i = some x) : findReq (setReq l i v) i = some v := by
  induction l with
  | nil => simp [findReq] at h
  | cons hd tl ih =>
      obtain ⟨j, info⟩ := hd
      by_cases hij : i = j
      · simp [findReq, setReq, hij]
      · simp [findReq, setReq, hij] at h ⊢
        exact ih h

theorem findReq_setReq_ne (l : List (Nat × ReqInfo)) (i j : Nat) (v : ReqInfo)
    (h : j ≠ i) : findReq (setReq l i v) j = findReq l j := by
  induction l with
  | nil => simp [setReq]
  | cons hd tl ih =>
      obtain ⟨k, info⟩ := hd
      by_cases hik : i = k
      · subst hik
        simp [findReq, setReq, h]
      · by_cases hjk : j = k
        · simp [findReq, setReq, hik, hjk]
        · simp [findReq, setReq, hik, hjk, ih]

theorem findReq_append_of_some (l : List (Nat × ReqInfo)) (i j : Nat)
    (v x : ReqInfo) (h : findReq l j = some x) :
    findReq (l ++ [(i, v)]) j = some x := by
  induction l with
  | nil => simp [findReq] at h
  | cons hd tl ih =>
      obtain ⟨k, info⟩ := hd
      by_cases hjk : j = k
      · simp [findReq, hjk] at h ⊢
        exact h
      · simp [findReq, hjk] at h ⊢
        exact ih h

theorem findReq_append_self (l : List (Nat × ReqInfo)) (i : Nat) (v : ReqInfo)
    (h : findReq l i = none) : findReq (l ++ [(i, v)]) i = some v := by
  induction l with
  | nil => simp [findReq]
  | cons hd tl ih =>
      obtain ⟨k, info⟩ := hd
      by_cases hik : i = k
      · simp [findReq, hik] at h
      · simp [findReq, hik] at h ⊢
        exact ih h

theorem findReq_append_ne (l : List (Nat × ReqInfo)) (i j : Nat) (v : ReqInfo)
    (h : j ≠ i) : findReq (l ++ [(i, v)]) j = findReq l j := by
  induction l with
  | nil => simp [findReq, h]
  | cons hd tl ih =>
      obtain ⟨k, info⟩ := hd
      by_cases hjk : j = k
      · simp [findReq, hjk]
      · simp [findReq, hjk, ih]

theorem reqs_setLang (s : SysState) (L : Language) (g : LangState) :
    (setLang s L g).reqs = s.reqs := by
  cases L <;> rfl

theorem perLang_setLang_self (s : SysState) (L : Language) (g : LangState) :
    perLang (setLang s L g) L = g := by
  cases L <;> rfl

theorem perLang_setLang_ne (s : SysState) (L M : Language) (g : LangState)
    (h : M ≠ L) : perLang (setLang s L g) M = perLang s M := by
  cases L <;> cases M <;> first | rfl | exact absurd rfl h

theorem perLang_withReqs (s : SysState) (r : List (Nat × ReqInfo))
    (L : Language) : perLang { s with reqs := r } L = perLang s L := by
  cases L <;> rfl

end Playground

namespace Playground

theorem inv_preserve_reqsOnly (s : SysState) (id : Nat) (info info2 : ReqInfo)
    (hInv : Inv s)
    (hf : findReq s.reqs id = some info)
    (hlang : info2.lang = info.lang)
    (hA : inflight info2.phase = true → inflight info.phase = true)
    (hB : inflight info.phase = true → inflight info2.phase = true)
    (hC : (info2.phase = Phase.gateReleased ∨ info2.phase = Phase.responded) →
          info2.acquiredEver = true → info2.releasedEver = true)
    (hD : (info2.phase = Phase.received ∨ info2.phase = Phase.validated) →
          info2.acquiredEver = false) :
    Inv { s with reqs := setReq s.reqs id info2 } := by
  obtain ⟨hHold, hAct, hFifo, hRel, hEarly⟩ := hInv
  refine ⟨?_, ?_, ?_, ?_, ?_⟩
  · intro j infoj hfj hinfl
    rw [perLang_withReqs]
    by_cases hji : j = id
    · subst hji
      rw [findReq_setReq_self s.reqs j info2 info hf] at hfj
      cases hfj
      rw [hlang]
      exact hHold j info hf (hA hinfl)
    · rw [findReq_setReq_ne s.reqs id j info2 hji] at hfj
      exact hHold j infoj hfj hinfl
  · intro L j hj
    rw [perLang_withReqs] at hj
    obtain ⟨infoj, hfj, hlj, hinfl⟩ := hAct L j hj
    by_cases hji : j = id
    · subst hji
      have : infoj = info := by
        rw [hf] at hfj; exact (Option.some.inj hfj).symm
      subst this
      exact ⟨info2, findReq_setReq_self s.reqs j info2 infoj hf,
        hlang.trans hlj, hB hinfl⟩
    · exact ⟨infoj, by rw [findReq_setReq_ne s.reqs id j info2 hji]; exact hfj,
        hlj, hinfl⟩
  · intro L
    rw [perLang_withReqs, perLang_withReqs, perLang_withReqs]
    exact hFifo L
  · intro j infoj hfj hph hacq
    by_cases hji : j = id
    · subst hji
      rw [findReq_setReq_self s.reqs j info2 info hf] at hfj
      cases hfj
      exact hC hph hacq
    · rw [findReq_setReq_ne s.reqs id j info2 hji] at hfj
      exact hRel j infoj hfj hph hacq
  · intro j infoj hfj hph
    by_cases hji : j = id
    · subst hji
      rw [findReq_setReq_self s.reqs j info2 info hf] at hfj
      cases hfj
      exact hD hph
    · rw [findReq_setReq_ne s.reqs id j info2 hji] at hfj
      exact hEarly j infoj hfj hph

end Playground

namespace Playground

theorem inv_preserve_release (s s2 : SysState) (id : Nat) (info info2 : ReqInfo)
    (g2 : LangState) (L : Language) (hInv : Inv s)
    (hf : findReq s.reqs id = some info)
    (hlang : info.lang = L)
    (hholder : (perLang s L).holder = some id)
    (hinfl : inflight info.phase = true)
    (hinfo2 : info2 = { info with phase := Phase.gateReleased, releasedEver := true })
    (hg2 : g2 = { perLang s L with holder := none })
    (hs2 : s2 = setLang { s with reqs := setReq s.reqs id info2 } L g2) :
    Inv s2 := by
  obtain ⟨hHold, hAct, hFifo, hRel, hEarly⟩ := hInv
  subst hs2
  have hreqs : (setLang { s with reqs := setReq s.reqs id info2 } L g2).reqs
      = setReq s.reqs id info2 := by
    rw [reqs_setLang]
  refine ⟨?_, ?_, ?_, ?_, ?_⟩
  · intro j infoj hfj hinflj
    rw [hreqs] at hfj
    by_cases hji : j = id
    · subst hji
      rw [findReq_setReq_self s.reqs j info2 info hf] at hfj
      cases hfj
      simp [hinfo2, inflight] at hinflj
    · rw [findReq_setReq_ne s.reqs id j info2 hji] at hfj
      have hold := hHold j infoj hfj hinflj
      by_cases hMl : infoj.lang = L
      · rw [hMl] at hold
        rw [hold] at hholder
        exact absurd (Option.some.inj hholder) hji
      · rw [perLang_setLang_ne _ _ _ _ hMl, perLang_withReqs]
        exact hold
  · intro M j hj
    by_cases hML : M = L
    · subst hML
      rw [perLang_setLang_self] at hj
      simp [hg2] at hj
    · rw [perLang_setLang_ne _ _ _ _ hML, perLang_withReqs] at hj
      obtain ⟨infoj, hfj, hlj, hinflj⟩ := hAct M j hj
      by_cases hji : j = id
      · subst hji
        have : infoj = info := by
          rw [hf] at hfj; exact (Option.some.inj hfj).symm
        subst this
        rw [hlang] at hlj
        exact absurd hlj.symm hML
      · refine ⟨infoj, ?_, hlj, hinflj⟩
        rw [hreqs, findReq_setReq_ne s.reqs id j info2 hji]
        exact hfj
  · intro M
    by_cases hML : M = L
    · subst hML
      rw [perLang_setLang_self]
      simpa [hg2] using hFifo M
    · rw [perLang_setLang_ne _ _ _ _ hML, perLang_withReqs]
      exact hFifo M
  · intro j infoj hfj hph hacq
    rw [hreqs] at hfj
    by_cases hji : j = id
    · subst hji
      rw [findReq_setReq_self s.reqs j info2 info hf] at hfj
      cases hfj
      simp [hinfo2]
    · rw [findReq_setReq_ne s.reqs id j info2 hji] at hfj
      exact hRel j infoj hfj hph hacq
  · intro j infoj hfj hph
    rw [hreqs] at hfj
    by_cases hji : j = id
    · subst hji
      rw [findReq_setReq_self s.reqs j info2 info hf] at hfj
      cases hfj
      simp [hinfo2] at hph
    · rw [findReq_setReq_ne s.reqs id j info2 hji] at hfj
      exact hEarly j infoj hfj hph

end Playground

namespace Playground

theorem inv_preserve_acquire (s s2 : SysState) (id : Nat) (info info2 : ReqInfo)
    (g2 : LangState) (L : Language) (hInv : Inv s)
    (hf : findReq s.reqs id = some info)
    (hlang : info.lang = L)
    (hphase : info.phase = Phase.validated)
    (hholder : (perLang s L).holder = none)
    (hhead : (perLang s L).queue.head? = some id)
    (hinfo2 : info2 = { info with phase := Phase.gateAcquired, acquiredEver := true })
    (hg2 : g2 = { perLang s L with holder := some id, queue := (perLang s L).queue.tail, grants := (perLang s L).grants ++ [id] })
    (hs2 : s2 = setLang { s with reqs := setReq s.reqs id info2 } L g2) :
    Inv s2 := by
  obtain ⟨hHold, hAct, hFifo, hRel, hEarly⟩ := hInv
  subst hs2
  have hreqs : (setLang { s with reqs := setReq s.reqs id info2 } L g2).reqs
      = setReq s.reqs id info2 := by
    rw [reqs_setLang]
  have hqcons : (perLang s L).queue = id :: (perLang s L).queue.tail := by
    cases hq : (perLang s L).queue with
    | nil => rw [hq] at hhead; simp at hhead
    | cons a t =>
        rw [hq] at hhead
        simp at hhead
        rw [hhead]
        simp
  refine ⟨?_, ?_, ?_, ?_, ?_⟩
  · intro j infoj hfj hinflj
    rw [hreqs] at hfj
    by_cases hji : j = id
    · subst hji
      rw [findReq_setReq_self s.reqs j info2 info hf] at hfj
      cases hfj
      simp [hinfo2, hlang, perLang_setLang_self, hg2]
    · rw [findReq_setReq_ne s.reqs id j info2 hji] at hfj
      have hold := hHold j infoj hfj hinflj
      by_cases hMl : infoj.lang = L
      · rw [hMl, hholder] at hold
        simp at hold
      · rw [perLang_setLang_ne _ _ _ _ hMl, perLang_withReqs]
        exact hold
  · intro M j hj
    by_cases hML : M = L
    · subst hML
      rw [perLang_setLang_self, hg2] at hj
      simp at hj
      subst hj
      refine ⟨info2, ?_, ?_, ?_⟩
      · rw [hreqs]
        exact findReq_setReq_self s.reqs id info2 info hf
      · rw [hinfo2]; exact hlang
      · rw [hinfo2]; rfl
    · rw [perLang_setLang_ne _ _ _ _ hML, perLang_withReqs] at hj
      obtain ⟨infoj, hfj, hlj, hinflj⟩ := hAct M j hj
      by_cases hji : j = id
      · subst hji
        have he : infoj = info := by
          rw [hf] at hfj; exact (Option.some.inj hfj).symm
        subst he
        rw [hphase] at hinflj
        simp [inflight] at hinflj
      · refine ⟨infoj, ?_, hlj, hinflj⟩
        rw [hreqs, findReq_setReq_ne s.reqs id j info2 hji]
        exact hfj
  · intro M
    by_cases hML : M = L
    · subst hML
      rw [perLang_setLang_self, hg2]
      have := hFifo M
      rw [hqcons] at this
      simp only at this ⊢
      rw [List.append_assoc, List.singleton_append]
      exact this
    · rw [perLang_setLang_ne _ _ _ _ hML, perLang_withReqs]
      exact hFifo M
  · intro j infoj hfj hph hacq
    rw [hreqs] at hfj
    by_cases hji : j = id
    · subst hji
      rw [findReq_setReq_self s.reqs j info2 info hf] at hfj
      cases hfj
      simp [hinfo2] at hph
    · rw [findReq_setReq_ne s.reqs id j info2 hji] at hfj
      exact hRel j infoj hfj hph hacq
  · intro j infoj hfj hph
    rw [hreqs] at hfj
    by_cases hji : j = id
    · subst hji
      rw [findReq_setReq_self s.reqs j info2 info hf] at hfj
      cases hfj
      simp [hinfo2] at hph
    · rw [findReq_setReq_ne s.reqs id j info2 hji] at hfj
      exact hEarly j infoj hfj hph

end Playground

namespace Playground

theorem inv_preserve_validateOk (s s2 : SysState) (id : Nat) (info info2 : ReqInfo)
    (g2 : LangState) (L : Language) (hInv : Inv s)
    (hf : findReq s.reqs id = some info)
    (hlang : info.lang = L)
    (hphase : info.phase = Phase.received)
    (hinfo2 : info2 = { info with phase := Phase.validated })
    (hg2 : g2 = { perLang s L with queue := (perLang s L).queue ++ [id], joins := (perLang s L).joins ++ [id] })
    (hs2 : s2 = setLang { s with reqs := setReq s.reqs id info2 } L g2) :
    Inv s2 := by
  obtain ⟨hHold, hAct, hFifo, hRel, hEarly⟩ := hInv
  subst hs2
  have hreqs : (setLang { s with reqs := setReq s.reqs id info2 } L g2).reqs
      = setReq s.reqs id info2 := by
    rw [reqs_setLang]
  have hg2holder : g2.holder = (perLang s L).holder := by rw [hg2]
  refine ⟨?_, ?_, ?_, ?_, ?_⟩
  · intro j infoj hfj hinflj
    rw [hreqs] at hfj
    by_cases hji : j = id
    · subst hji
      rw [findReq_setReq_self s.reqs j info2 info hf] at hfj
      cases hfj
      simp [hinfo2, inflight] at hinflj
    · rw [findReq_setReq_ne s.reqs id j info2 hji] at hfj
      have hold := hHold j infoj hfj hinflj
      by_cases hMl : infoj.lang = L
      · rw [hMl, perLang_setLang_self, hg2holder]
        rw [hMl] at hold
        exact hold
      · rw [perLang_setLang_ne _ _ _ _ hMl, perLang_withReqs]
        exact hold
  · intro M j hj
    have hj' : (perLang s M).holder = some j := by
      by_cases hML : M = L
      · subst hML
        rw [perLang_setLang_self, hg2holder] at hj
        exact hj
      · rw [perLang_setLang_ne _ _ _ _ hML, perLang_withReqs] at hj
        exact hj
    obtain ⟨infoj, hfj, hlj, hinflj⟩ := hAct M j hj'
    by_cases hji : j = id
    · subst hji
      have he : infoj = info := by
        rw [hf] at hfj; exact (Option.some.inj hfj).symm
      subst he
      rw [hphase] at hinflj
      simp [inflight] at hinflj
    · refine ⟨infoj, ?_, hlj, hinflj⟩
      rw [hreqs, findReq_setReq_ne s.reqs id j info2 hji]
      exact hfj
  · intro M
    by_cases hML : M = L
    · subst hML
      rw [perLang_setLang_self, hg2]
      have := hFifo M
      simp only
      rw [← List.append_assoc, this]
    · rw [perLang_setLang_ne _ _ _ _ hML, perLang_withReqs]
      exact hFifo M
  · intro j infoj hfj hph hacq
    rw [hreqs] at hfj
    by_cases hji : j = id
    · subst hji
      rw [findReq_setReq_self s.reqs j info2 info hf] at hfj
      cases hfj
      simp [hinfo2] at hph
    · rw [findReq_setReq_ne s.reqs id j info2 hji] at hfj
      exact hRel j infoj hfj hph hacq
  · intro j infoj hfj hph
    rw [hreqs] at hfj
    by_cases hji : j = id
    · subst hji
      rw [findReq_setReq_self s.reqs j info2 info hf] at hfj
      cases hfj
      have := hEarly j info hf (Or.inl hphase)
      simp [hinfo2, this]
    · rw [findReq_setReq_ne s.reqs id j info2 hji] at hfj
      exact hEarly j infoj hfj hph

theorem inv_preserve_arrive (s s2 : SysState) (id : Nat) (L : Language)
    (hInv : Inv s)
    (hnone : findReq s.reqs id = none)
    (hs2 : s2 = { s with reqs := s.reqs ++ [(id, { lang := L, phase := Phase.received, acquiredEver := false, releasedEver := false })] }) :
    Inv s2 := by
  obtain ⟨hHold, hAct, hFifo, hRel, hEarly⟩ := hInv
  subst hs2
  refine ⟨?_, ?_, ?_, ?_, ?_⟩
  · intro j infoj hfj hinflj
    simp only at hfj
    by_cases hji : j = id
    · subst hji
      rw [findReq_append_self s.reqs j _ hnone] at hfj
      cases hfj
      simp [inflight] at hinflj
    · rw [findReq_append_ne s.reqs id j _ hji] at hfj
      rw [perLang_withReqs]
      exact hHold j infoj hfj hinflj
  · intro M j hj
    rw [perLang_withReqs] at hj
    obtain ⟨infoj, hfj, hlj, hinflj⟩ := hAct M j hj
    exact ⟨infoj, findReq_append_of_some s.reqs id j _ infoj hfj, hlj, hinflj⟩
  · intro M
    rw [perLang_withReqs, perLang_withReqs, perLang_withReqs]
    exact hFifo M
  · intro j infoj hfj hph hacq
    simp only at hfj
    by_cases hji : j = id
    · subst hji
      rw [findReq_append_self s.reqs j _ hnone] at hfj
      cases hfj
      simp at hph
    · rw [findReq_append_ne s.reqs id j _ hji] at hfj
      exact hRel j infoj hfj hph hacq
  · intro j infoj hfj hph
    simp only at hfj
    by_cases hji : j = id
    · subst hji
      rw [findReq_append_self s.reqs j _ hnone] at hfj
      cases hfj
      rfl
    · rw [findReq_append_ne s.reqs id j _ hji] at hfj
      exact hEarly j infoj hfj hph

end Playground

namespace Playground

theorem step_inv (s s2 : SysState) (a : Act) (hInv : Inv s)
    (h : step s a = some s2) : Inv s2 := by
  cases a with
  | arrive id L =>
      cases hfr : findReq s.reqs id with
      | some info => simp [step, hfr] at h
      | none =>
          simp only [step, hfr] at h
          injection h with h2
          exact inv_preserve_arrive s s2 id L hInv hfr h2.symm
  | validateFail id L =>
      cases hfr : findReq s.reqs id with
      | none => simp [step, hfr] at h
      | some info =>
          simp only [step, hfr] at h
          by_cases hc : info.lang = L ∧ info.phase = Phase.received
          · rw [if_pos hc] at h
            injection h with h2
            rw [← h2]
            refine inv_preserve_reqsOnly s id info _ hInv hfr rfl ?_ ?_ ?_ ?_
            · intro hx; simp [inflight] at hx
            · rw [hc.2]; intro hx; simp [inflight] at hx
            · intro _ hacq
              have := hInv.2.2.2.2 id info hfr (Or.inl hc.2)
              simp only at hacq
              rw [this] at hacq
              cases hacq
            · intro hx; simp at hx
          · rw [if_neg hc] at h; cases h
  | validateOk id L =>
      cases hfr : findReq s.reqs id with
      | none => simp [step, hfr] at h
      | some info =>
          simp only [step, hfr] at h
          by_cases hc : info.lang = L ∧ info.phase = Phase.received
          · rw [if_pos hc] at h
            injection h with h2
            exact inv_preserve_validateOk s s2 id info _ _ L hInv hfr hc.1 hc.2
              rfl rfl h2.symm
          · rw [if_neg hc] at h; cases h
  | acquire id L =>
      cases hfr : findReq s.reqs id with
      | none => simp [step, hfr] at h
      | some info =>
          simp only [step, hfr] at h
          by_cases hc : info.lang = L ∧ info.phase = Phase.validated ∧
              (perLang s L).holder = none ∧ (perLang s L).queue.head? = some id
          · rw [if_pos hc] at h
            injection h with h2
            exact inv_preserve_acquire s s2 id info _ _ L hInv hfr hc.1 hc.2.1
              hc.2.2.1 hc.2.2.2 rfl rfl h2.symm
          · rw [if_neg hc] at h; cases h
  | stageEntry id L =>
      cases hfr : findReq s.reqs id with
      | none => simp [step, hfr] at h
      | some info =>
          simp only [step, hfr] at h
          by_cases hc : info.lang = L ∧ info.phase = Phase.gateAcquired
          · rw [if_pos hc] at h
            injection h with h2
            rw [← h2]
            refine inv_preserve_reqsOnly s id info _ hInv hfr rfl ?_ ?_ ?_ ?_
            · intro _; rw [hc.2]; rfl
            · intro _; rfl
            · intro hx; simp at hx
            · intro hx; simp at hx
          · rw [if_neg hc] at h; cases h
  | buildRun id L oc =>
      cases hfr : findReq s.reqs id with
      | none => simp [step, hfr] at h
      | some info =>
          simp only [step, hfr] at h
          by_cases hc : info.lang = L ∧ info.phase = Phase.staged
          · rw [if_pos hc] at h
            injection h with h2
            rw [← h2]
            refine inv_preserve_reqsOnly s id info _ hInv hfr rfl ?_ ?_ ?_ ?_
            · intro _; rw [hc.2]; rfl
            · intro _; rfl
            · intro hx; simp at hx
            · intro hx; simp at hx
          · rw [if_neg hc] at h; cases h
  | classifyRes id L =>
      cases hfr : findReq s.reqs id with
      | none => simp [step, hfr] at h
      | some info =>
          simp only [step, hfr] at h
          by_cases hc : info.lang = L ∧ info.phase = Phase.builtRun
          · rw [if_pos hc] at h
            injection h with h2
            rw [← h2]
            refine inv_preserve_reqsOnly s id info _ hInv hfr rfl ?_ ?_ ?_ ?_
            · intro _; rw [hc.2]; rfl
            · intro _; rfl
            · intro hx; simp at hx
            · intro hx; simp at hx
          · rw [if_neg hc] at h; cases h
  | release id L =>
      cases hfr : findReq s.reqs id with
      | none => simp [step, hfr] at h
      | some info =>
          simp only [step, hfr] at h
          by_cases hc : info.lang = L ∧ info.phase = Phase.classified ∧
              (perLang s L).holder = some id
          · rw [if_pos hc] at h
            injection h with h2
            refine inv_preserve_release s s2 id info _ _ L hInv hfr hc.1
              hc.2.2 ?_ rfl rfl h2.symm
            rw [hc.2.1]; rfl
          · rw [if_neg hc] at h; cases h
  | abortRelease id L =>
      cases hfr : findReq s.reqs id with
      | none => simp [step, hfr] at h
      | some info =>
          simp only [step, hfr] at h
          by_cases hc : info.lang = L ∧ (info.phase = Phase.gateAcquired ∨
              info.phase = Phase.staged ∨ info.phase = Phase.builtRun) ∧
              (perLang s L).holder = some id
          · rw [if_pos hc] at h
            injection h with h2
            refine inv_preserve_release s s2 id info _ _ L hInv hfr hc.1
              hc.2.2 ?_ rfl rfl h2.symm
            rcases hc.2.1 with hp | hp | hp <;> rw [hp] <;> rfl
          · rw [if_neg hc] at h; cases h
  | respond id L =>
      cases hfr : findReq s.reqs id with
      | none => simp [step, hfr] at h
      | some info =>
          simp only [step, hfr] at h
          by_cases hc : info.lang = L ∧ info.phase = Phase.gateReleased
          · rw [if_pos hc] at h
            injection h with h2
            rw [← h2]
            refine inv_preserve_reqsOnly s id info _ hInv hfr rfl ?_ ?_ ?_ ?_
            · intro hx; simp [inflight] at hx
            · rw [hc.2]; intro hx; simp [inflight] at hx
            · intro _ hacq
              exact hInv.2.2.2.1 id info hfr (Or.inl hc.2) hacq
            · intro hx; simp at hx
          · rw [if_neg hc] at h; cases h

theorem init_inv : Inv initState := by
  refine ⟨?_, ?_, ?_, ?_, ?_⟩
  · intro j infoj hfj _
    simp [initState, findReq] at hfj
  · intro M j hj
    cases M <;> simp [initState, perLang] at hj
  · intro M
    cases M <;> rfl
  · intro j infoj hfj _ _
    simp [initState, findReq] at hfj
  · intro j infoj hfj _
    simp [initState, findReq] at hfj

theorem run_inv (acts : List Act) (s s2 : SysState) (hInv : Inv s)
    (h : run s acts = some s2) : Inv s2 := by
  induction acts generalizing s with
  | nil => simp [run] at h; rw [← h]; exact hInv
  | cons a rest ih =>
      simp only [run] at h
      cases hst : step s a with
      | none => rw [hst] at h; cases h
      | some t =>
          rw [hst] at h
          exact ih t (step_inv s t a hInv hst) h

theorem reachable_inv (acts : List Act) (s : SysState)
    (h : run initState acts = some s) : Inv s :=
  run_inv acts initState s init_inv h

end Playground

namespace Playground

theorem step_reqs_shape (s s2 : SysState) (a : Act) (h : step s a = some s2) :
    (∃ v, s2.reqs = s.reqs ++ [(actId a, v)]) ∨
    (∃ v, s2.reqs = setReq s.reqs (actId a) v) := by
  cases a with
  | arrive id L =>
      cases hf : findReq s.reqs id with
      | some info => simp [step, hf] at h
      | none =>
          simp only [step, hf] at h
          injection h with h2
          exact Or.inl ⟨_, by rw [← h2]; rfl⟩
  | validateFail id L =>
      cases hf : findReq s.reqs id with
      | none => simp [step, hf] at h
      | some info =>
          simp only [step, hf] at h
          split at h
          · injection h with h2
            exact Or.inr ⟨_, by rw [← h2]; rfl⟩
          · cases h
  | validateOk id L =>
      cases hf : findReq s.reqs id with
      | none => simp [step, hf] at h
      | some info =>
          simp only [step, hf] at h
          split at h
          · injection h with h2
            exact Or.inr ⟨_, by rw [← h2, reqs_setLang]; rfl⟩
          · cases h
  | acquire id L =>
      cases hf : findReq s.reqs id with
      | none => simp [step, hf] at h
      | some info =>
          simp only [step, hf] at h
          split at h
          · injection h with h2
            exact Or.inr ⟨_, by rw [← h2, reqs_setLang]; rfl⟩
          · cases h
  | stageEntry id L =>
      cases hf : findReq s.reqs id with
      | none => simp [step, hf] at h
      | some info =>
          simp only [step, hf] at h
          split at h
          · injection h with h2
            exact Or.inr ⟨_, by rw [← h2]; rfl⟩
          · cases h
  | buildRun id L oc =>
      cases hf : findReq s.reqs id with
      | none => simp [step, hf] at h
      | some info =>
          simp only [step, hf] at h
          split at h
          · injection h with h2
            exact Or.inr ⟨_, by rw [← h2]; rfl⟩
          · cases h
  | classifyRes id L =>
      cases hf : findReq s.reqs id with
      | none => simp [step, hf] at h
      | some info =>
          simp only [step, hf] at h
          split at h
          · injection h with h2
            exact Or.inr ⟨_, by rw [← h2]; rfl⟩
          · cases h
  | release id L =>
      cases hf : findReq s.reqs id with
      | none => simp [step, hf] at h
      | some info =>
          simp only [step, hf] at h
          split at h
          · injection h with h2
            exact Or.inr ⟨_, by rw [← h2, reqs_setLang]; rfl⟩
          · cases h
  | abortRelease id L =>
      cases hf : findReq s.reqs id with
      | none => simp [step, hf] at h
      | some info =>
          simp only [step, hf] at h
          split at h
          · injection h with h2
            exact Or.inr ⟨_, by rw [← h2, reqs_setLang]; rfl⟩
          · cases h
  | respond id L =>
      cases hf : findReq s.reqs id with
      | none => simp [step, hf] at h
      | some info =>
          simp only [step, hf] at h
          split at h
          · injection h with h2
            exact Or.inr ⟨_, by rw [← h2]; rfl⟩
          · cases h

theorem findReq_step_ne (s s2 : SysState) (a : Act) (j : Nat)
    (h : step s a = some s2) (hj : j ≠ actId a) :
    findReq s2.reqs j = findReq s.reqs j := by
  rcases step_reqs_shape s s2 a h with ⟨v, hv⟩ | ⟨v, hv⟩
  · rw [hv]
    exact findReq_append_ne s.reqs (actId a) j v hj
  · rw [hv]
    exact findReq_setReq_ne s.reqs (actId a) j v hj

theorem perLang_step_ne (s s2 : SysState) (a : Act) (M : Language)
    (h : step s a = some s2) (hM : M ≠ actLang a) :
    perLang s2 M = perLang s M := by
  cases a with
  | arrive id L =>
      cases hf : findReq s.reqs id with
      | some info => simp [step, hf] at h
      | none =>
          simp only [step, hf] at h
          injection h with h2
          rw [← h2]
          exact perLang_withReqs s _ M
  | validateFail id L =>
      cases hf : findReq s.reqs id with
      | none => simp [step, hf] at h
      | some info =>
          simp only [step, hf] at h
          split at h
          · injection h with h2
            rw [← h2]
            exact perLang_withReqs s _ M
          · cases h
  | validateOk id L =>
      cases hf : findReq s.reqs id with
      | none => simp [step, hf] at h
      | some info =>
          simp only [step, hf] at h
          simp only [actLang] at hM
          split at h
          · injection h with h2
            rw [← h2, perLang_setLang_ne _ _ _ _ hM]
            exact perLang_withReqs s _ M
          · cases h
  | acquire id L =>
      cases hf : findReq s.reqs id with
      | none => simp [step, hf] at h
      | some info =>
          simp only [step, hf] at h
          simp only [actLang] at hM
          split at h
          · injection h with h2
            rw [← h2, perLang_setLang_ne _ _ _ _ hM]
            exact perLang_withReqs s _ M
          · cases h
  | stageEntry id L =>
      cases hf : findReq s.reqs id with
      | none => simp [step, hf] at h
      | some info =>
          simp only [step, hf] at h
          split at h
          · injection h with h2
            rw [← h2]
            exact perLang_withReqs s _ M
          · cases h
  | buildRun id L oc =>
      cases hf : findReq s.reqs id with
      | none => simp [step, hf] at h
      | some info =>
          simp only [step, hf] at h
          split at h
          · injection h with h2
            rw [← h2]
            exact perLang_withReqs s _ M
          · cases h
  | classifyRes id L =>
      cases hf : findReq s.reqs id with
      | none => simp [step, hf] at h
      | some info =>
          simp only [step, hf] at h
          split at h
          · injection h with h2
            rw [← h2]
            exact perLang_withReqs s _ M
          · cases h
  | release id L =>
      cases hf : findReq s.reqs id with
      | none => simp [step, hf] at h
      | some info =>
          simp only [step, hf] at h
          simp only [actLang] at hM
          split at h
          · injection h with h2
            rw [← h2, perLang_setLang_ne _ _ _ _ hM]
            exact perLang_withReqs s _ M
          · cases h
  | abortRelease id L =>
      cases hf : findReq s.reqs id with
      | none => simp [step, hf] at h
      | some info =>
          simp only [step, hf] at h
          simp only [actLang] at hM
          split at h
          · injection h with h2
            rw [← h2, perLang_setLang_ne _ _ _ _ hM]
            exact perLang_withReqs s _ M
          · cases h
  | respond id L =>
      cases hf : findReq s.reqs id with
      | none => simp [step, hf] at h
      | some info =>
          simp only [step, hf] at h
          split at h
          · injection h with h2
            rw [← h2]
            exact perLang_withReqs s _ M
          · cases h

end Playground

namespace Playground

theorem step_isSome_congr (s t : SysState) (b : Act)
    (hfr : findReq t.reqs (actId b) = findReq s.reqs (actId b))
    (hpl : perLang t (actLang b) = perLang s (actLang b))
    (h : (step s b).isSome = true) : (step t b).isSome = true := by
  cases b with
  | arrive id L =>
      simp only [actId] at hfr
      cases hf : findReq s.reqs id with
      | some info => simp [step, hf] at h
      | none =>
          rw [hf] at hfr
          simp [step, hfr]
  | validateFail id L =>
      simp only [actId] at hfr
      cases hf : findReq s.reqs id with
      | none => simp [step, hf] at h
      | some info =>
          rw [hf] at hfr
          simp only [step, hf] at h
          simp only [step, hfr]
          by_cases hc : info.lang = L ∧ info.phase = Phase.received
          · rw [if_pos hc]; rfl
          · rw [if_neg hc] at h; simp at h
  | validateOk id L =>
      simp only [actId] at hfr
      cases hf : findReq s.reqs id with
      | none => simp [step, hf] at h
      | some info =>
          rw [hf] at hfr
          simp only [step, hf] at h
          simp only [step, hfr]
          by_cases hc : info.lang = L ∧ info.phase = Phase.received
          · rw [if_pos hc]; rfl
          · rw [if_neg hc] at h; simp at h
  | acquire id L =>
      simp only [actId] at hfr
      simp only [actLang] at hpl
      cases hf : findReq s.reqs id with
      | none => simp [step, hf] at h
      | some info =>
          rw [hf] at hfr
          simp only [step, hf] at h
          simp only [step, hfr]
          by_cases hc : info.lang = L ∧ info.phase = Phase.validated ∧
              (perLang s L).holder = none ∧ (perLang s L).queue.head? = some id
          · have hc2 : info.lang = L ∧ info.phase = Phase.validated ∧
                (perLang t L).holder = none ∧ (perLang t L).queue.head? = some id := by
              rw [hpl]; exact hc
            rw [if_pos hc2]; rfl
          · rw [if_neg hc] at h; simp at h
  | stageEntry id L =>
      simp only [actId] at hfr
      cases hf : findReq s.reqs id with
      | none => simp [step, hf] at h
      | some info =>
          rw [hf] at hfr
          simp only [step, hf] at h
          simp only [step, hfr]
          by_cases hc : info.lang = L ∧ info.phase = Phase.gateAcquired
          · rw [if_pos hc]; rfl
          · rw [if_neg hc] at h; simp at h
  | buildRun id L oc =>
      simp only [actId] at hfr
      cases hf : findReq s.reqs id with
      | none => simp [step, hf] at h
      | some info =>
          rw [hf] at hfr
          simp only [step, hf] at h
          simp only [step, hfr]
          by_cases hc : info.lang = L ∧ info.phase = Phase.staged
          · rw [if_pos hc]; rfl
          · rw [if_neg hc] at h; simp at h
  | classifyRes id L =>
      simp only [actId] at hfr
      cases hf : findReq s.reqs id with
      | none => simp [step, hf] at h
      | some info =>
          rw [hf] at hfr
          simp only [step, hf] at h
          simp only [step, hfr]
          by_cases hc : info.lang = L ∧ info.phase = Phase.builtRun
          · rw [if_pos hc]; rfl
          · rw [if_neg hc] at h; simp at h
  | release id L =>
      simp only [actId] at hfr
      simp only [actLang] at hpl
      cases hf : findReq s.reqs id with
      | none => simp [step, hf] at h
      | some info =>
          rw [hf] at hfr
          simp only [step, hf] at h
          simp only [step, hfr]
          by_cases hc : info.lang = L ∧ info.phase = Phase.classified ∧
              (perLang s L).holder = some id
          · have hc2 : info.lang = L ∧ info.phase = Phase.classified ∧
                (perLang t L).holder = some id := by
              rw [hpl]; exact hc
            rw [if_pos hc2]; rfl
          · rw [if_neg hc] at h; simp at h
  | abortRelease id L =>
      simp only [actId] at hfr
      simp only [actLang] at hpl
      cases hf : findReq s.reqs id with
      | none => simp [step, hf] at h
      | some info =>
          rw [hf] at hfr
          simp only [step, hf] at h
          simp only [step, hfr]
          by_cases hc : info.lang = L ∧ (info.phase = Phase.gateAcquired ∨
              info.phase = Phase.staged ∨ info.phase = Phase.builtRun) ∧
              (perLang s L).holder = some id
          · have hc2 : info.lang = L ∧ (info.phase = Phase.gateAcquired ∨
                info.phase = Phase.staged ∨ info.phase = Phase.builtRun) ∧
                (perLang t L).holder = some id := by
              rw [hpl]; exact hc
            rw [if_pos hc2]; rfl
          · rw [if_neg hc] at h; simp at h
  | respond id L =>
      simp only [actId] at hfr
      cases hf : findReq s.reqs id with
      | none => simp [step, hf] at h
      | some info =>
          rw [hf] at hfr
          simp only [step, hf] at h
          simp only [step, hfr]
          by_cases hc : info.lang = L ∧ info.phase = Phase.gateReleased
          · rw [if_pos hc]; rfl
          · rw [if_neg hc] at h; simp at h

end Playground

namespace Playground

/-- Claim C1: in every reachable state of the service, at most one
staging+build+run cycle per language is in flight (any two in-flight requests
of the same language are the same request), and same-language requests are
fully serialized in arrival order: the grant history followed by the current
wait queue equals the arrival history, so the gate is granted first-come
first-served and no two cycles of one language ever interleave. -/
theorem per_language_serialization (acts : List Act) (s : SysState)
    (h : run initState acts = some s) :
    (∀ (L : Language) (id1 id2 : Nat) (info1 info2 : ReqInfo),
      findReq s.reqs id1 = some info1 → findReq s.reqs id2 = some info2 →
      info1.lang = L → info2.lang = L →
      inflight info1.phase = true → inflight info2.phase = true → id1 = id2) ∧
    (∀ L : Language,
      (perLang s L).grants ++ (perLang s L).queue = (perLang s L).joins) := by
  have hInv := reachable_inv acts s h
  constructor
  · intro L id1 id2 info1 info2 hf1 hf2 hl1 hl2 hin1 hin2
    have h1 := hInv.1 id1 info1 hf1 hin1
    have h2 := hInv.1 id2 info2 hf2 hin2
    rw [hl1] at h1
    rw [hl2] at h2
    rw [h1] at h2
    exact Option.some.inj h2
  · exact hInv.2.2.1

theorem per_language_serialization_witness :
    run initState demoActs1 = some demoState1 ∧
    findReq demoState1.reqs 0 = some demoInfo1 ∧
    demoInfo1.lang = Language.rust ∧
    inflight demoInfo1.phase = true ∧
    (0 = 0) ∧
    (perLang demoState1 Language.rust).grants ++ (perLang demoState1 Language.rust).queue
      = (perLang demoState1 Language.rust).joins := by
  refine ⟨rfl, rfl, rfl, rfl, ?_, ?_⟩
  · exact (per_language_serialization demoActs1 demoState1 rfl).1 Language.rust 0 0
      demoInfo1 demoInfo1 rfl rfl rfl rfl rfl rfl
  · exact (per_language_serialization demoActs1 demoState1 rfl).2 Language.rust

/-- Claim C2: in every reachable state, a request that has responded and ever
acquired its language's Execution Gate has also released it, and no gate is
still held by a request that has responded — release happens on every exit
path before the response, so a failing request cannot block later requests. -/
theorem gate_released_on_every_exit_path (acts : List Act) (s : SysState)
    (h : run initState acts = some s) (id : Nat) (info : ReqInfo)
    (hf : findReq s.reqs id = some info)
    (hresp : info.phase = Phase.responded) :
    (info.acquiredEver = true → info.releasedEver = true) ∧
    (∀ L : Language, (perLang s L).holder ≠ some id) := by
  have hInv := reachable_inv acts s h
  constructor
  · exact fun hacq => hInv.2.2.2.1 id info hf (Or.inr hresp) hacq
  · intro L hl
    obtain ⟨info2, hf2, _, hin2⟩ := hInv.2.1 L id hl
    rw [hf] at hf2
    have he : info = info2 := Option.some.inj hf2
    rw [← he, hresp] at hin2
    simp [inflight] at hin2

theorem gate_released_on_every_exit_path_witness :
    run initState demoActs2 = some demoState2 ∧
    findReq demoState2.reqs 0 = some demoInfo2 ∧
    demoInfo2.phase = Phase.responded ∧
    demoInfo2.acquiredEver = true ∧
    demoInfo2.releasedEver = true ∧
    (perLang demoState2 Language.rust).holder ≠ some 0 := by
  refine ⟨rfl, rfl, rfl, rfl, ?_, ?_⟩
  · exact (gate_released_on_every_exit_path demoActs2 demoState2 rfl 0 demoInfo2
      rfl rfl).1 rfl
  · exact (gate_released_on_every_exit_path demoActs2 demoState2 rfl 0 demoInfo2
      rfl rfl).2 Language.rust

/-- Claim C9: executions of different languages are fully independent: a step
of one language's pipeline leaves the other language's gate state untouched;
a step of one language never disables an enabled step of the other language
(no cross-language blocking); and in every reachable state no three distinct
requests are in flight at once — at most two compilations, one per language,
run concurrently system-wide. -/
theorem cross_language_independence :
    (∀ (s s2 : SysState) (a : Act) (M : Language), step s a = some s2 →
      M ≠ actLang a → perLang s2 M = perLang s M) ∧
    (∀ (s s2 s3 : SysState) (a b : Act), step s a = some s2 →
      step s b = some s3 → actId a ≠ actId b → actLang a ≠ actLang b →
      ∃ s4, step s2 b = some s4) ∧
    (∀ (acts : List Act) (s : SysState), run initState acts = some s →
      ∀ (id1 id2 id3 : Nat) (info1 info2 info3 : ReqInfo),
        findReq s.reqs id1 = some info1 → findReq s.reqs id2 = some info2 →
        findReq s.reqs id3 = some info3 →
        inflight info1.phase = true → inflight info2.phase = true →
        inflight info3.phase = true → id1 = id2 ∨ id1 = id3 ∨ id2 = id3) := by
  refine ⟨?_, ?_, ?_⟩
  · intro s s2 a M h hM
    exact perLang_step_ne s s2 a M h hM
  · intro s s2 s3 a b ha hb hid hL
    have hfr := findReq_step_ne s s2 a (actId b) ha (fun he => hid he.symm)
    have hpl := perLang_step_ne s s2 a (actLang b) ha (fun he => hL he.symm)
    have hsome := step_isSome_congr s s2 b hfr hpl (by rw [hb]; rfl)
    exact Option.isSome_iff_exists.mp hsome
  · intro acts s h id1 id2 id3 info1 info2 info3 hf1 hf2 hf3 hin1 hin2 hin3
    have hInv := reachable_inv acts s h
    have h1 := hInv.1 id1 info1 hf1 hin1
    have h2 := hInv.1 id2 info2 hf2 hin2
    have h3 := hInv.1 id3 info3 hf3 hin3
    by_cases h12 : info1.lang = info2.lang
    · left
      rw [← h12] at h2
      rw [h1] at h2
      exact Option.some.inj h2
    · by_cases h13 : info1.lang = info3.lang
      · right; left
        rw [← h13] at h3
        rw [h1] at h3
        exact Option.some.inj h3
      · have h23 : info2.lang = info3.lang := by
          cases e1 : info1.lang <;> cases e2 : info2.lang <;>
            cases e3 : info3.lang <;> simp_all
        right; right
        rw [← h23] at h3
        rw [h2] at h3
        exact Option.some.inj h3

theorem cross_language_independence_witness :
    (step initState (Act.arrive 0 Language.rust) = some demoStateA ∧
      perLang demoStateA Language.typescript = perLang initState Language.typescript) ∧
    (run initState demoActs9 = some demoState9 ∧
      step demoState9 (Act.validateOk 0 Language.rust) = some demoState9a ∧
      step demoState9 (Act.validateOk 1 Language.typescript) = some demoState9b ∧
      ∃ s4, step demoState9a (Act.validateOk 1 Language.typescript) = some s4) ∧
    ((0 : Nat) = 0 ∨ (0 : Nat) = 0 ∨ (0 : Nat) = 0) := by
  refine ⟨⟨rfl, ?_⟩, ⟨rfl, rfl, rfl, ?_⟩, ?_⟩
  · exact cross_language_independence.1 initState demoStateA
      (Act.arrive 0 Language.rust) Language.typescript rfl (by simp [actLang])
  · exact cross_language_independence.2.1 demoState9 demoState9a demoState9b
      (Act.validateOk 0 Language.rust) (Act.validateOk 1 Language.typescript)
      rfl rfl (by simp [actId]) (by simp [actLang])
  · exact cross_language_independence.2.2 demoActs1 demoState1 rfl 0 0 0
      demoInfo1 demoInfo1 demoInfo1 rfl rfl rfl rfl rfl rfl

end Playground

namespace Playground

theorem execResult_shape (t : Nat) (oc : PipeOutcome) :
    ((execResult t oc).success = true → (execResult t oc).error = none) ∧
    ((execResult t oc).success = false →
      ∃ msg, (execResult t oc).error = some msg) := by
  cases oc with
  | infraError => simp [execResult]
  | ran p =>
      simp only [execResult, classify]
      split_ifs <;> simp

/-- Claim C3: the Result Classifier is a pure function of
`(buildExit, runExit, stderrText, stdoutText, timedOut)` with precedence
timeout > build failure > run failure > success: a set timeout flag yields the
timeout failure whatever the other fields; otherwise a non-zero build exit
yields a build failure whose result does not depend on the run exit (the run
never happens); otherwise a non-zero run exit yields a run failure with
`success = false` even when standard output is non-empty; otherwise the
result is success with `output` the captured standard output. -/
theorem classifier_precedence :
    (∀ (b r : Int) (e o : String), classify b r e o true =
      { success := false, output := o, error := some timeoutMessage }) ∧
    (∀ (b r : Int) (e o : String), b ≠ 0 → classify b r e o false =
      { success := false, output := "", error := some e }) ∧
    (∀ (b r1 r2 : Int) (e o : String), b ≠ 0 →
      classify b r1 e o false = classify b r2 e o false) ∧
    (∀ (r : Int) (e o : String), r ≠ 0 → classify 0 r e o false =
      { success := false, output := o, error := some e }) ∧
    (∀ (e o : String), classify 0 0 e o false =
      { success := true, output := o, error := none }) := by
  refine ⟨?_, ?_, ?_, ?_, ?_⟩
  · intro b r e o
    simp [classify]
  · intro b r e o hb
    simp [classify, hb]
  · intro b r1 r2 e o hb
    simp [classify, hb]
  · intro r e o hr
    simp [classify, hr]
  · intro e o
    simp [classify]

theorem classifier_precedence_witness :
    classify 1 0 "be" "so" true
        = { success := false, output := "so", error := some timeoutMessage } ∧
    ((1 : Int) ≠ 0 ∧ classify 1 0 "be" "so" false
        = { success := false, output := "", error := some "be" }) ∧
    classify 1 0 "be" "so" false = classify 1 7 "be" "so" false ∧
    ((2 : Int) ≠ 0 ∧ classify 0 2 "re" "so" false
        = { success := false, output := "so", error := some "re" }) ∧
    classify 0 0 "re" "so" false
        = { success := true, output := "so", error := none } := by
  refine ⟨?_, ⟨by decide, ?_⟩, ?_, ⟨by decide, ?_⟩, ?_⟩
  · exact classifier_precedence.1 1 0 "be" "so"
  · exact classifier_precedence.2.1 1 0 "be" "so" (by decide)
  · exact classifier_precedence.2.2.1 1 0 7 "be" "so" (by decide)
  · exact classifier_precedence.2.2.2.1 2 "re" "so" (by decide)
  · exact classifier_precedence.2.2.2.2 "re" "so"

/-- Claim C4: every Execution Result handed back by the Request Handler has
the `success`/`output`/`error` shape with the payloads mutually populated:
`success = true` forces `error = none`, and `success = false` forces `error`
to carry a diagnostic string. -/
theorem result_shape_invariant (lang : Language) (b : ReqBody)
    (oc : PipeOutcome) (t : Nat) (ws : Workspace) (res : ExecutionResult)
    (hres : (handle lang b oc t ws).body = some res) :
    (res.success = true → res.error = none) ∧
    (res.success = false → ∃ msg, res.error = some msg) := by
  cases b with
  | malformed => simp [handle, validBody] at hres
  | missingCode => simp [handle, validBody] at hres
  | withCode code =>
      have he : res = execResult t oc := by
        simp [handle, validBody] at hres
        exact hres.symm
      rw [he]
      exact execResult_shape t oc

theorem result_shape_invariant_witness :
    (handle Language.rust (ReqBody.withCode "x") PipeOutcome.infraError 5
        demoWs).body = some (execResult 5 PipeOutcome.infraError) ∧
    ((execResult 5 PipeOutcome.infraError).success = false →
      ∃ msg, (execResult 5 PipeOutcome.infraError).error = some msg) := by
  refine ⟨rfl, ?_⟩
  exact (result_shape_invariant Language.rust (ReqBody.withCode "x")
    PipeOutcome.infraError 5 demoWs (execResult 5 PipeOutcome.infraError) rfl).2

/-- Claim C5: when the wall-clock elapsed time exceeds the configured timeout,
the Toolchain Runner force-terminates the child process tree, the request
resolves to `success = false` with the fixed timeout diagnostic, only one
attempt is ever made (a timeout is terminal, never retried), and the
timeout decision is independent of CPU time. -/
theorem timeout_terminates_and_is_terminal (t : Nat) (p : ProcData)
    (h : t < p.elapsedMs) :
    (runWithTimeout t p).timedOut = true ∧
    (runWithTimeout t p).treeKilled = true ∧
    (runWithTimeout t p).attempts = 1 ∧
    (execResult t (PipeOutcome.ran p)).success = false ∧
    (execResult t (PipeOutcome.ran p)).error = some timeoutMessage ∧
    (∀ c : Nat, runWithTimeout t { p with cpuMs := c } = runWithTimeout t p) := by
  refine ⟨?_, ?_, ?_, ?_, ?_, ?_⟩
  · simp [runWithTimeout, h]
  · simp [runWithTimeout, h]
  · simp [runWithTimeout, h]
  · simp [execResult, runWithTimeout, classify, h]
  · simp [execResult, runWithTimeout, classify, h]
  · intro c
    simp [runWithTimeout]

theorem timeout_terminates_and_is_terminal_witness :
    5 < demoProc.elapsedMs ∧
    (runWithTimeout 5 demoProc).treeKilled = true ∧
    (execResult 5 (PipeOutcome.ran demoProc)).success = false ∧
    (execResult 5 (PipeOutcome.ran demoProc)).error = some timeoutMessage ∧
    (runWithTimeout 5 demoProc).attempts = 1 := by
  have hg := timeout_terminates_and_is_terminal 5 demoProc (by decide)
  exact ⟨by decide, hg.2.1, hg.2.2.2.1, hg.2.2.2.2.1, hg.2.2.1⟩

/-- Claim C6: a POST whose body is malformed or lacks the `code` field is
answered with a client error (HTTP 400, no result body) and has no pipeline
effect at all: the Execution Gate is never acquired, no file is staged, no
toolchain is invoked, and the template workspace is returned unchanged. -/
theorem invalid_body_rejected_before_gate (lang : Language) (b : ReqBody)
    (oc : PipeOutcome) (t : Nat) (ws : Workspace)
    (h : validBody b = none) :
    (handle lang b oc t ws).status = 400 ∧
    (handle lang b oc t ws).body = none ∧
    (handle lang b oc t ws).effects.gateAcquired = false ∧
    (handle lang b oc t ws).effects.stagedFile = false ∧
    (handle lang b oc t ws).effects.toolchainInvoked = false ∧
    (handle lang b oc t ws).ws = ws := by
  refine ⟨?_, ?_, ?_, ?_, ?_, ?_⟩ <;> simp [handle, h]

theorem invalid_body_rejected_before_gate_witness :
    validBody ReqBody.missingCode = none ∧
    (handle Language.typescript ReqBody.missingCode PipeOutcome.infraError 5
        demoWs).status = 400 ∧
    (handle Language.typescript ReqBody.missingCode PipeOutcome.infraError 5
        demoWs).effects.gateAcquired = false := by
  have hg := invalid_body_rejected_before_gate Language.typescript
    ReqBody.missingCode PipeOutcome.infraError 5 demoWs rfl
  exact ⟨rfl, hg.1, hg.2.2.1⟩

/-- Claim C7: every submission that passes validation is answered with HTTP
status 200 carrying the Execution Result as the body, regardless of the
pipeline outcome; a non-200 status can only arise from a body that failed
validation. -/
theorem http_200_regardless_of_outcome (lang : Language) (code : String)
    (oc : PipeOutcome) (t : Nat) (ws : Workspace) :
    ((handle lang (ReqBody.withCode code) oc t ws).status = 200 ∧
     (handle lang (ReqBody.withCode code) oc t ws).body
        = some (execResult t oc)) ∧
    (∀ b : ReqBody, (handle lang b oc t ws).status ≠ 200 →
      validBody b = none) := by
  constructor
  · exact ⟨rfl, rfl⟩
  · intro b hb
    cases hv : validBody b with
    | none => rfl
    | some c => exact absurd (by simp [handle, hv]) hb

theorem http_200_regardless_of_outcome_witness :
    (handle Language.rust (ReqBody.withCode "fn main() \x7b\x7d")
        PipeOutcome.infraError 5 demoWs).status = 200 ∧
    (handle Language.rust ReqBody.malformed PipeOutcome.infraError 5
        demoWs).status ≠ 200 ∧
    validBody ReqBody.malformed = none := by
  refine ⟨?_, ?_, ?_⟩
  · exact (http_200_regardless_of_outcome Language.rust "fn main() \x7b\x7d"
      PipeOutcome.infraError 5 demoWs).1.1
  · decide
  · exact (http_200_regardless_of_outcome Language.rust "x"
      PipeOutcome.infraError 5 demoWs).2 ReqBody.malformed (by decide)

/-- Claim C8: the Source Stager writes the submitted code string verbatim to
the language's designated entry-file path, replacing any previous contents,
and mutates nothing else: every other path of the template workspace keeps
exactly its prior contents. -/
theorem stager_verbatim_and_frame (lang : Language) (code : String)
    (ws : Workspace) :
    stage lang code ws (entryFile lang) = code ∧
    (∀ p : String, p ≠ entryFile lang → stage lang code ws p = ws p) := by
  constructor
  · simp [stage]
  · intro p hp
    simp [stage, hp]

theorem stager_verbatim_and_frame_witness :
    stage Language.rust "fn main() \x7b\x7d" demoWs (entryFile Language.rust)
        = "fn main() \x7b\x7d" ∧
    ("Cargo.toml" ≠ entryFile Language.rust ∧
      stage Language.rust "fn main() \x7b\x7d" demoWs "Cargo.toml"
        = demoWs "Cargo.toml") := by
  refine ⟨?_, ⟨by decide, ?_⟩⟩
  · exact (stager_verbatim_and_frame Language.rust "fn main() \x7b\x7d" demoWs).1
  · exact (stager_verbatim_and_frame Language.rust "fn main() \x7b\x7d" demoWs).2
      "Cargo.toml" (by decide)

end Playground

namespace Snippets

/-- Claim C10: `loadSnippet` never rejects — a thrown step inside its body
resolves to `null` (`none`), and its value is fully determined by whether each
of the two files loaded successfully: it is `some` exactly when both the
`rust.txt` and `typescript.txt` fetches resolved ok and their texts loaded,
and `useCodeSnippets` produces exactly the successfully loaded snippets with
every failed (null) load filtered out. -/
theorem loadSnippet_never_rejects_and_filters (fetch : Fetch) :
    (∀ (snippetId e : String), loadSnippetBody fetch snippetId = .error e →
      loadSnippet fetch snippetId = none) ∧
    (∀ snippetId : String, loadSnippet fetch snippetId =
      (match fetchedText fetch (rustUrl snippetId),
          fetchedText fetch (tsUrl snippetId) with
      | some rc, some tc => some (mkLoadedSnippet snippetId rc tc)
      | _, _ => none)) ∧
    useCodeSnippets fetch = availableSnippets.filterMap (loadSnippet fetch) ∧
    (∀ s : CodeSnippet, s ∈ useCodeSnippets fetch ↔
      ∃ snippetId, snippetId ∈ availableSnippets ∧
        loadSnippet fetch snippetId = some s) := by
  refine ⟨?_, ?_, ?_, ?_⟩
  · intro snippetId e h
    simp [loadSnippet, h]
  · intro snippetId
    cases hr : fetch (rustUrl snippetId) with
    | error e =>
        simp [loadSnippet, loadSnippetBody, fetchedText, hr, bind, Except.bind]
    | ok r =>
        obtain ⟨rok, rtext⟩ := r
        cases hts : fetch (tsUrl snippetId) with
        | error e =>
            cases rok <;>
              simp [loadSnippet, loadSnippetBody, fetchedText, hr, hts, bind,
                Except.bind]
        | ok t =>
            obtain ⟨tok, ttext⟩ := t
            cases rok <;> cases tok <;> cases rtext <;> cases ttext <;>
              simp [loadSnippet, loadSnippetBody, fetchedText, hr, hts, bind,
                Except.bind, mkLoadedSnippet, pure, Except.pure]
  · simp [useCodeSnippets, List.filterMap_map]
  · intro s
    simp [useCodeSnippets, List.filterMap_map, List.mem_filterMap]

theorem loadSnippet_never_rejects_and_filters_witness :
    loadSnippetBody demoFetchDown "hello-world" = .error "network unreachable" ∧
    loadSnippet demoFetchDown "hello-world" = none ∧
    loadSnippet demoFetchHello "hello-world"
      = some (mkLoadedSnippet "hello-world" "fn main() \x7b\x7d" "console.log(1);") ∧
    useCodeSnippets demoFetchHello
      = availableSnippets.filterMap (loadSnippet demoFetchHello) := by
  refine ⟨rfl, ?_, ?_, ?_⟩
  · exact (loadSnippet_never_rejects_and_filters demoFetchDown).1 "hello-world"
      "network unreachable" rfl
  · have hg := (loadSnippet_never_rejects_and_filters demoFetchHello).2.1
      "hello-world"
    rw [hg]
    rfl
  · exact (loadSnippet_never_rejects_and_filters demoFetchHello).2.2.1

end Snippets
